import Mathlib

/-!
Verification of the UiAutomatorController core (element-location cache and
toast monitor) against its natural-language specification.

The Python source (`UiAutomatorController/ui_automator.py`) is shallowly
embedded: screen identities and filenames are modelled as `List Char`
(Python `str` operations such as `strip`, `split`, `replace`, `re.sub` are
reimplemented character by character), element keys as `String`, the
persistent cache directory as an association list from filename to parsed
JSON content, UI trees as a rose tree of attributed nodes, and time (for
the toast wait loops) as rationals.
-/

/-- Shorthand: character list of a string literal. -/
def str (s : String) : List Char := s.data

/-! ## Generic character-list operations mirroring Python `str` methods -/

/-- Does `pat` occur at the head of `l`?  (Mirrors Python's startswith / the
anchored step of substring search.) -/
def leadsWith : List Char → List Char → Bool
  | [], _ => true
  | _ :: _, [] => false
  | p :: ps, c :: cs => p == c && leadsWith ps cs

/-- Python `s.endswith(pat)`. -/
def trailsWith (pat l : List Char) : Bool :=
  leadsWith pat.reverse l.reverse

/-- Does `pat` occur anywhere in `l`?  (Python `pat in s`.) -/
def hasSeq (pat : List Char) : List Char → Bool
  | [] => leadsWith pat []
  | c :: cs => leadsWith pat (c :: cs) || hasSeq pat cs

/-- Python `s.replace(pat, repl)` (all non-overlapping occurrences, scanned
left to right), fuelled so that it is structurally recursive; `replaceAll`
instantiates the fuel with the length of the input. -/
def replaceAllF (pat repl : List Char) : Nat → List Char → List Char
  | _, [] => []
  | 0, l => l
  | fuel + 1, c :: cs =>
    if leadsWith pat (c :: cs) then
      repl ++ replaceAllF pat repl fuel (List.drop (pat.length - 1) cs)
    else
      c :: replaceAllF pat repl fuel cs

/-- Python `s.replace(pat, repl)` for a non-empty `pat`. -/
def replaceAll (pat repl l : List Char) : List Char :=
  replaceAllF pat repl l.length l

/-- Python `s.split(sep, 1)` for a single-character separator: the part
before the first `sep`, and — when `sep` occurs — the part after it. -/
def pySplit1 (sep : Char) : List Char → List Char × Option (List Char)
  | [] => ([], none)
  | c :: cs =>
    if c == sep then ([], some cs)
    else
      let r := pySplit1 sep cs
      (c :: r.1, r.2)

/-- Python `s.split(sep)` for a non-empty separator sequence, fuelled. -/
def pySplitSeqF (sep : List Char) : Nat → List Char → List (List Char)
  | _, [] => [[]]
  | 0, l => [l]
  | fuel + 1, c :: cs =>
    if leadsWith sep (c :: cs) then
      [] :: pySplitSeqF sep fuel (List.drop (sep.length - 1) cs)
    else
      match pySplitSeqF sep fuel cs with
      | [] => [[c]]
      | p :: ps => (c :: p) :: ps

/-- Python `s.split(sep)` for a non-empty separator. -/
def pySplitSeq (sep l : List Char) : List (List Char) :=
  pySplitSeqF sep l.length l

/-- Python `s.strip(chars)`: drop characters of the set from both ends. -/
def pyStrip (p : Char → Bool) (l : List Char) : List Char :=
  ((l.dropWhile p).reverse.dropWhile p).reverse

/-- ASCII whitespace, the model of the `\s` class / `str.strip()` set. -/
def isWs (c : Char) : Bool :=
  c == ' ' || c == '\t' || c == '\n' || c == '\r' || c == '\x0b' || c == '\x0c'

/-- ASCII decimal digit, the model of the `\d` class. -/
def isDigitC (c : Char) : Bool :=
  '0' ≤ c && c ≤ '9'

/-- Digit-sequence part of Python `int(str)`: a non-empty digit string,
with single underscores allowed between digits. -/
def parseDigitsGo (acc : Nat) : List Char → Option Nat
  | [] => some acc
  | c :: cs =>
    if isDigitC c then parseDigitsGo (acc * 10 + (c.toNat - '0'.toNat)) cs
    else if c == '_' then
      match cs with
      | d :: cs' =>
        if isDigitC d then parseDigitsGo (acc * 10 + (d.toNat - '0'.toNat)) cs'
        else none
      | [] => none
    else none

/-- Non-empty digit run (with Python's interior underscores). -/
def parseDigits : List Char → Option Nat
  | [] => none
  | c :: cs => if isDigitC c then parseDigitsGo (c.toNat - '0'.toNat) cs else none

/-- Python `int(str)`: optional surrounding whitespace, optional sign,
then a digit run; `none` models the raised `ValueError`. -/
def pyInt (l : List Char) : Option Int :=
  match pyStrip isWs l with
  | '-' :: ds => (parseDigits ds).map (fun n => -(n : Int))
  | '+' :: ds => (parseDigits ds).map (fun n => (n : Int))
  | ds => (parseDigits ds).map (fun n => (n : Int))

/-- Association-list lookup (model of Python `dict` indexing / `in`). -/
def assocFind {α β : Type} [DecidableEq α] (k : α) : List (α × β) → Option β
  | [] => none
  | (k', v) :: rest => if k' = k then some v else assocFind k rest

/-- Association-list insert-or-overwrite (model of Python `d[k] = v`). -/
def assocPut {α β : Type} [DecidableEq α] (k : α) (v : β) : List (α × β) → List (α × β)
  | [] => [(k, v)]
  | (k', v') :: rest =>
    if k' = k then (k', v) :: rest else (k', v') :: assocPut k v rest

/-! ## Element query keys (`_get_element_key`, ui_automator.py lines 126-137)

A predicate participates only when it is "truthy" in Python: neither `None`
nor the empty string. -/

/-- Python truthiness of an optional string argument. -/
def present : Option String → Bool
  | none => false
  | some s => !(s == "")

/-- One `parts.append(f"tag={value}")` step of `_get_element_key`. -/
def optPart (tag : String) : Option String → List String
  | none => []
  | some s => if s == "" then [] else [tag ++ "=" ++ s]

/-- `_get_element_key`: concatenate the present predicates, in the fixed
order id, text, class, joined by underscores. -/
def get_element_key (resource_id text class_name : Option String) : String :=
  String.intercalate "_"
    (optPart "id" resource_id ++ optPart "text" text ++ optPart "class" class_name)

/-! A query as supplied at a call site: a list of field/value pairs in
arbitrary construction order (Python keyword arguments).  `fieldVal`
extracts the value bound to one field; with each field supplied at most
once this is order-independent. -/

/-- The three predicate fields of an element query. -/
inductive QField : Type
  | fid
  | ftext
  | fclass
  deriving DecidableEq

/-- One supplied predicate: a field together with its value. -/
structure QPred : Type where
  fld : QField
  val : String
  deriving DecidableEq

/-- The value supplied for field `f`, if any. -/
def fieldVal (ps : List QPred) (f : QField) : Option String :=
  ((ps.filter (fun p => p.fld = f)).head?).map QPred.val

/-- Canonical cache key of a query supplied as an (arbitrarily ordered)
predicate list. -/
def keyOfPreds (ps : List QPred) : String :=
  get_element_key (fieldVal ps .fid) (fieldVal ps .ftext) (fieldVal ps .fclass)

/-! ## Screen-identity sanitization (`_sanitize_activity_name`, lines 82-87)

`re.sub(r'\s*/?\s*t\d+', '', name)` followed by
`re.sub(r'[\\/:*?"<>|]', '_', name)`.  The first substitution is modelled
by a deterministic matcher (`matchTaskId`): the character classes of the
pattern's pieces are pairwise disjoint, so the backtracking regex engine and
the maximal-munch matcher accept exactly the same strings. -/

/-- Match `t\d+` at the head, returning the rest after the greedy digit run. -/
def matchTD : List Char → Option (List Char)
  | [] => none
  | c :: cs =>
    if c == 't' then
      match cs with
      | [] => none
      | d :: _ => if isDigitC d then some (cs.dropWhile isDigitC) else none
    else none

/-- Match `\s*/?\s*t\d+` at the head of `l`, returning the unmatched rest. -/
def matchTaskId (l : List Char) : Option (List Char) :=
  match l.dropWhile isWs with
  | [] => none
  | c :: rest =>
    if c == '/' then matchTD (rest.dropWhile isWs)
    else matchTD (c :: rest)

/-- `re.sub(r'\s*/?\s*t\d+', '', ·)`: scan left to right; on a match, drop
it and resume after its end; otherwise keep the character.  Fuelled
(every match consumes at least one character). -/
def removeTaskIdsF : Nat → List Char → List Char
  | 0, l => l
  | fuel + 1, l =>
    match matchTaskId l with
    | some r => removeTaskIdsF fuel r
    | none =>
      match l with
      | [] => []
      | c :: cs => c :: removeTaskIdsF fuel cs

/-- `re.sub(r'\s*/?\s*t\d+', '', l)`. -/
def removeTaskIds (l : List Char) : List Char :=
  removeTaskIdsF l.length l

/-- The filesystem-illegal characters `[\\/:*?"<>|]`. -/
def isIllegalFileChar (c : Char) : Bool :=
  c == '\\' || c == '/' || c == ':' || c == '*' || c == '?' ||
    c == '"' || c == '<' || c == '>' || c == '|'

/-- One character of `re.sub(r'[\\/:*?"<>|]', '_', ·)`. -/
def legalize (c : Char) : Char :=
  if isIllegalFileChar c then '_' else c

/-- `_sanitize_activity_name`: strip task-id fragments, then replace
filesystem-illegal characters by underscores. -/
def sanitize_activity_name (name : List Char) : List Char :=
  (removeTaskIds name).map legalize

/-! ## Element cache store (`_preload_activity_cache` lines 89-111,
`_save_activity_cache` lines 113-124)

A durable cache unit holds the JSON serialization of one screen's
query-key → coordinate mapping; `json.dump` followed by `json.load` is the
identity on this shape of data, so file contents are modelled as the
mapping itself.  The cache directory is an association list from filename
(a character list) to content, in directory-listing order. -/

/-- One screen's cache: canonical element key → centre coordinates. -/
abbrev ScreenCache := List (String × (Int × Int))

/-- The in-memory `activity_cache`: sanitized screen identity → screen cache. -/
abbrev ActivityCache := List (List Char × ScreenCache)

/-- The cache directory: filename → deserialized content. -/
abbrev CacheDir := List (List Char × ScreenCache)

/-- `_save_activity_cache`: no-op when caching is off; otherwise re-sanitize
the screen identity and overwrite the unit `f"{device}_{activity_name}.json"`. -/
def save_activity_cache (use_cache : Bool) (device : List Char)
    (activity_name : List Char) (cache_data : ScreenCache) (fs : CacheDir) : CacheDir :=
  if !use_cache then fs
  else
    let an := sanitize_activity_name activity_name
    assocPut (device ++ '_' :: (an ++ str ".json")) cache_data fs

/-- The step `_preload_activity_cache` performs for one directory entry:
keep `.json` files that are not scratch (`temp_`) files, drop the extension
(Python `replace(".json", "")` removes every occurrence), split on the
first underscore into device id and screen identity, and keep only units
of the attached device. -/
def preloadStep (device : List Char) (acc : ActivityCache)
    (file : List Char × ScreenCache) : ActivityCache :=
  if trailsWith (str ".json") file.1 && !leadsWith (str "temp_") file.1 then
    let stem := replaceAll (str ".json") [] file.1
    match pySplit1 '_' stem with
    | (dev, some act) => if dev = device then assocPut act file.2 acc else acc
    | (_, none) => acc
  else acc

/-- `_preload_activity_cache`: enumerate the cache directory and collect the
units belonging to `device`. -/
def preload_activity_cache (use_cache : Bool) (device : List Char)
    (fs : CacheDir) : ActivityCache :=
  if !use_cache then [] else fs.foldl (preloadStep device) []

/-! ## UI tree snapshot and the element locator
(`find_element`, lines 139-198; `check_element_exists`, lines 296-304)

The parsed `uiautomator` dump is a rose tree of elements, each carrying a
tag and an attribute list.  `root.find(".//node[...]")` returns the first
strict descendant, in document (preorder) order, whose tag is `node` and
whose listed attributes all match exactly. -/

mutual

/-- A parsed XML element. -/
inductive UITree : Type
  | mk (tag : String) (attrib : List (String × String)) (children : UIForest)

/-- A sequence of sibling elements. -/
inductive UIForest : Type
  | nil
  | cons (head : UITree) (tail : UIForest)

end

/-- Tag of an element. -/
def UITree.tag : UITree → String
  | .mk t _ _ => t

/-- Attribute list of an element. -/
def UITree.attrib : UITree → List (String × String)
  | .mk _ a _ => a

/-- Children of an element. -/
def UITree.children : UITree → UIForest
  | .mk _ _ c => c

mutual

/-- An element together with all its descendants, in document order. -/
def descTree : UITree → List UITree
  | .mk t a ch => .mk t a ch :: descForest ch

/-- All elements of a forest together with their descendants, in document
order. -/
def descForest : UIForest → List UITree
  | .nil => []
  | .cons t ts => descTree t ++ descForest ts

end

/-- The strict descendants of `root` in document order (the search space of
`root.find(".//node")`). -/
def UITree.descendants (root : UITree) : List UITree :=
  descForest root.children

/-- `element.attrib.get(key, default)`. -/
def attrGetD (el : UITree) (key dflt : String) : String :=
  (assocFind key el.attrib).getD dflt

/-- One `conditions.append(f'@key="{value}"')` step of lines 167-173: a
condition is generated only for a present (truthy) argument. -/
def condPart (key : String) : Option String → List (String × String)
  | none => []
  | some s => if s == "" then [] else [(key, s)]

/-- The `@key="value"` conditions of the XPath built at lines 165-176, in
the order the code appends them. -/
def queryConds (resource_id text class_name : Option String) :
    List (String × String) :=
  condPart "resource-id" resource_id ++ condPart "text" text ++
    condPart "class" class_name

/-- Does `el` satisfy the single predicate `[@key="v"]`?  (The attribute
must be listed and equal the value exactly.) -/
def attrMatches (el : UITree) (kv : String × String) : Bool :=
  assocFind kv.1 el.attrib == some kv.2

/-- `value` is free of the double-quote character, so that interpolating it
into the f-string-built predicate `[@key="{value}"]` cannot change the
path's structure.  The locator theorems restrict predicate values to this
domain: a quote in a value is an injection into the path text, whose
outcome in ElementTree (usually `SyntaxError: invalid predicate`, sometimes
a reparse as a different query) is outside this model. -/
def noQuote : Option String → Bool
  | none => true
  | some s => !(s.data.contains '"')

/-- `root.find(xpath)` for the XPath of lines 165-176, on quote-free
predicate values.  With zero or one condition the path is valid
ElementTree syntax: the first strict descendant, in document order, tagged
`node` and satisfying the condition (if any) is returned.  With two or
more conditions the code joins them with `" and "`, which ElementTree's
predicate parser does not support, so `find` raises
`SyntaxError: invalid predicate` (modelled `.error ()`) without matching
anything. -/
def findNode (root : UITree) (resource_id text class_name : Option String) :
    Except Unit (Option UITree) :=
  let conds := queryConds resource_id text class_name
  if 2 ≤ conds.length then .error ()
  else
    .ok (root.descendants.find?
      (fun el => el.tag == "node" && conds.all (attrMatches el)))

/-- The ways the locator's element path can raise: `notFound` and
`valueError` are both Python `ValueError` (and so are caught by
`check_element_exists`); `indexError` (a one-part bounds split) and
`syntaxError` (ElementTree rejecting the `" and "`-joined predicate of a
multi-predicate query) are not. -/
inductive PyErr : Type
  | notFound
  | valueError
  | indexError
  | syntaxError
  deriving DecidableEq

/-- `x, y = map(int, part.split(","))`: exactly two comma-separated fields,
each an `int`-parsable string, else `ValueError`. -/
def unpack2Int (parts : List (List Char)) : Except PyErr (Int × Int) :=
  match parts with
  | [a, b] =>
    match pyInt a, pyInt b with
    | some x, some y => .ok (x, y)
    | _, _ => .error .valueError
  | _ => .error .valueError

/-- Lines 183-187: strip `[`/`]` from both ends, split on `][` into the two
corners, split each corner on `,` and parse the integers. -/
def pyParseBounds (bounds : List Char) : Except PyErr ((Int × Int) × (Int × Int)) :=
  let coords := pySplitSeq (str "][") (pyStrip (fun c => c == '[' || c == ']') bounds)
  match coords with
  | [] => .error .indexError
  | c0 :: rest =>
    match unpack2Int (pySplitSeq (str ",") c0) with
    | .error e => .error e
    | .ok (x1, y1) =>
      match rest with
      | [] => .error .indexError
      | c1 :: _ =>
        match unpack2Int (pySplitSeq (str ",") c1) with
        | .error e => .error e
        | .ok (x2, y2) => .ok ((x1, y1), (x2, y2))

/-- What the two external calls of `find_element` return on this invocation:
`activity` is the (sanitized-or-empty) result of `_get_current_activity`,
`root` the tree `_get_ui_hierarchy` would produce. -/
structure FindEnv : Type where
  activity : List Char
  root : UITree

/-- The observable outcome of one `find_element` call: the returned
coordinates or raised error, the in-memory cache afterwards, the cache
directory afterwards, and how many tree snapshots were taken. -/
structure FindOut : Type where
  result : Except PyErr (Int × Int)
  cache : ActivityCache
  fs : CacheDir
  snapshotCalls : Nat

/-- `find_element` (lines 139-198).  When caching is on, resolve the
current screen, create its (empty) screen cache if missing, and return the
stored coordinates on a key hit without taking a snapshot.  Otherwise take
a snapshot and run `root.find`: with two or more predicates the built
XPath is invalid and the `SyntaxError` propagates uncaught; with a valid
path and no match the not-found `ValueError` is raised; on a match, parse
the node's bounds, compute the floor-division midpoint, and — when a
screen identity is available — back-fill and persist the screen cache. -/
def find_element (use_cache : Bool) (device : List Char) (cache0 : ActivityCache)
    (fs0 : CacheDir) (env : FindEnv) (resource_id text class_name : Option String) :
    FindOut :=
  let activity := env.activity
  let cache1 :=
    if use_cache && !(activity == []) && (assocFind activity cache0).isNone then
      assocPut activity [] cache0
    else cache0
  let element_key := get_element_key resource_id text class_name
  let hit : Option (Int × Int) :=
    if use_cache && !(activity == []) then
      assocFind element_key ((assocFind activity cache1).getD [])
    else none
  match hit with
  | some c => ⟨.ok c, cache1, fs0, 0⟩
  | none =>
    match findNode env.root resource_id text class_name with
    | .error _ => ⟨.error .syntaxError, cache1, fs0, 1⟩
    | .ok none => ⟨.error .notFound, cache1, fs0, 1⟩
    | .ok (some el) =>
      match pyParseBounds (str (attrGetD el "bounds" "[]")) with
      | .error e => ⟨.error e, cache1, fs0, 1⟩
      | .ok ((x1, y1), (x2, y2)) =>
        let center : Int × Int := (Int.fdiv (x1 + x2) 2, Int.fdiv (y1 + y2) 2)
        if use_cache && !(activity == []) then
          let sc := assocPut element_key center ((assocFind activity cache1).getD [])
          ⟨.ok center, assocPut activity sc cache1,
            save_activity_cache true device activity sc fs0, 1⟩
        else ⟨.ok center, cache1, fs0, 1⟩

/-- `check_element_exists` (lines 296-304): `find_element` with
`ValueError` — both the not-found raise and a bounds-parse failure —
mapped to `false`; an `IndexError` or the multi-predicate `SyntaxError`
still escapes. -/
def check_element_exists (use_cache : Bool) (device : List Char)
    (cache0 : ActivityCache) (fs0 : CacheDir) (env : FindEnv)
    (resource_id text class_name : Option String) : Except PyErr Bool :=
  match (find_element use_cache device cache0 fs0 env resource_id text class_name).result with
  | .ok _ => .ok true
  | .error .notFound => .ok false
  | .error .valueError => .ok false
  | .error .indexError => .error .indexError
  | .error .syntaxError => .error .syntaxError

/-! ## Toast queue and waiting (`get_toast` lines 439-444,
`wait_for_toast` lines 455-462)

The blocking queue fed by the listener is modelled by its future delivery
schedule: a list of (arrival time, message) pairs in arrival order,
together with the current clock.  `queue.get(timeout=d)` returns the next
message if it arrives within `d` seconds (advancing the clock to its
arrival, or not at all if it is already queued), and otherwise returns
`None` after the full `d` seconds. -/

/-- The consumer-side view of the toast queue. -/
structure QState : Type where
  now : ℚ
  pending : List (ℚ × String)
  deriving DecidableEq

/-- `get_toast(timeout)`: blocking pop with a timeout, `none` on timeout. -/
def get_toast (timeout : ℚ) (s : QState) : Option String × QState :=
  match s.pending with
  | [] => (none, ⟨s.now + timeout, []⟩)
  | (t, m) :: rest =>
    if t ≤ s.now + timeout then (some m, ⟨max s.now t, rest⟩)
    else (none, ⟨s.now + timeout, s.pending⟩)

/-- The `while time.time() - start_time < timeout` loop of `wait_for_toast`:
each iteration hands the inner `get_toast` the original full `timeout`.
The fuel only bounds the number of loop iterations modelled; `none` means
the fuel ran out before the loop returned. -/
def wait_for_toast_loop (expected_text : String) (timeout start : ℚ) :
    Nat → QState → Option (Bool × QState)
  | 0, _ => none
  | fuel + 1, s =>
    if s.now - start < timeout then
      match get_toast timeout s with
      | (some toast, s') =>
        if !(toast == "") && hasSeq (str expected_text) (str toast) then some (true, s')
        else wait_for_toast_loop expected_text timeout start fuel s'
      | (none, s') => wait_for_toast_loop expected_text timeout start fuel s'
    else some (false, s)

/-- `wait_for_toast` (lines 455-462). -/
def wait_for_toast (expected_text : String) (timeout : ℚ) (fuel : Nat)
    (s : QState) : Option (Bool × QState) :=
  wait_for_toast_loop expected_text timeout s.now fuel s

/-! ## Toast event dispatch in the listener loop
(`_monitor_toast` lines 396-405, `_parse_toast_text` lines 424-437) -/

/-- The part of `line` after the first occurrence of `pat`, if any
(Python `line.find(pat)` plus offsetting). -/
def afterSeq (pat : List Char) : List Char → Option (List Char)
  | [] => if leadsWith pat [] then some [] else none
  | c :: cs =>
    if leadsWith pat (c :: cs) then some (List.drop pat.length (c :: cs))
    else afterSeq pat cs

/-- The part of `l` strictly before the first occurrence of `pat`, if any. -/
def beforeSeq (pat : List Char) : List Char → Option (List Char)
  | [] => if leadsWith pat [] then some [] else none
  | c :: cs =>
    if leadsWith pat (c :: cs) then some []
    else (beforeSeq pat cs).map (c :: ·)

/-- `_parse_toast_text`: the text between `Text: [` and the following `];`,
whitespace-stripped, or `none` when the markers are absent or the text is
empty. -/
def parse_toast_text (line : List Char) : Option (List Char) :=
  match afterSeq (str "Text: [") line with
  | none => none
  | some rest =>
    match beforeSeq (str "];") rest with
    | none => none
    | some raw =>
      let toast_text := pyStrip isWs raw
      if toast_text == [] then none else some toast_text

/-- A registered toast listener, as the loop sees it: a callback that can
raise (`.error` carries the exception's message). -/
abbrev ToastListener := List Char → Except String Unit

/-- One guarded listener call: `try: listener(text) except Exception as e:
print(...)` — the exception is logged (returned as `some message`), never
propagated. -/
def invokeListener (l : ToastListener) (text : List Char) : Option String :=
  match l text with
  | .ok _ => none
  | .error e => some e

/-- Processing of one event line by the listener loop (lines 396-405): if
the line carries both the notification-state-change marker and the toast
class marker and its text parses non-empty, the text is enqueued and every
registered listener is invoked with it, each call individually guarded.
Returns the queue afterwards and the log of per-listener outcomes (one
entry per registered listener, `some e` when that listener raised `e`). -/
def monitorToastLine (line : List Char) (listeners : List ToastListener)
    (queue : List (List Char)) : List (List Char) × List (Option String) :=
  if hasSeq (str "TYPE_NOTIFICATION_STATE_CHANGED") line &&
      hasSeq (str "ClassName: android.widget.Toast") line then
    match parse_toast_text line with
    | some toast_text =>
      (queue ++ [toast_text], listeners.map (invokeListener · toast_text))
    | none => (queue, [])
  else (queue, [])

/-! ## Toast monitor state machine (`start_toast_monitor` lines 335-344,
`stop_toast_monitor` lines 346-357, the listener's outer exception handler
lines 420-422)

The two states of the spec's ToastMonitorState are the two values of
`is_monitoring_toast`; `spawned` counts the background listener threads
ever started, so a no-op restart is visible as an unchanged count. -/

/-- The monitor's control state. -/
structure ToastMonitor : Type where
  is_monitoring_toast : Bool
  spawned : Nat
  deriving DecidableEq

/-- `start_toast_monitor`: a logged no-op while running, otherwise flip to
Running and spawn one background listener. -/
def start_toast_monitor (s : ToastMonitor) : ToastMonitor :=
  if s.is_monitoring_toast then s
  else { is_monitoring_toast := true, spawned := s.spawned + 1 }

/-- `stop_toast_monitor`: flip to Stopped (then nudge the device and join,
which does not change the control state). -/
def stop_toast_monitor (s : ToastMonitor) : ToastMonitor :=
  { s with is_monitoring_toast := false }

/-- The listener's unrecoverable-fault handler (lines 420-422): log and
flip to Stopped. -/
def monitor_toast_fault (s : ToastMonitor) : ToastMonitor :=
  { s with is_monitoring_toast := false }

/-! ## Generic lemmas about the embedding's primitives -/

theorem assocFind_nil {α β : Type} [DecidableEq α] (k : α) :
    assocFind k ([] : List (α × β)) = none := rfl

theorem assocFind_put {α β : Type} [DecidableEq α] (k s : α) (v : β)
    (m : List (α × β)) :
    assocFind s (assocPut k v m) = if k = s then some v else assocFind s m := by
  induction m with
  | nil => by_cases h : k = s <;> simp [assocPut, assocFind, h]
  | cons p rest ih =>
    obtain ⟨k', v'⟩ := p
    by_cases h1 : k' = k
    · subst h1
      by_cases h2 : k' = s <;> simp [assocPut, assocFind, h2]
    · by_cases h2 : k' = s
      · subst h2
        have : ¬ k = k' := fun h => h1 h.symm
        simp [assocPut, assocFind, h1, this]
      · simp [assocPut, assocFind, h1, h2, ih]

theorem dropWhile_length_le (p : Char → Bool) (l : List Char) :
    (l.dropWhile p).length ≤ l.length := by
  induction l with
  | nil => simp
  | cons c cs ih =>
    rw [List.dropWhile_cons]
    split
    · simp only [List.length_cons]; omega
    · exact le_refl _

/-! ## C4: canonical element keys -/

theorem filter_fld_length_le (f : QField) :
    ∀ ps : List QPred, (ps.map QPred.fld).Nodup →
      (ps.filter (fun p => p.fld = f)).length ≤ 1 := by
  intro ps
  induction ps with
  | nil => intro _; simp
  | cons p rest ih =>
    intro hnd
    simp only [List.map_cons, List.nodup_cons] at hnd
    rw [List.filter_cons]
    by_cases hp : p.fld = f
    · have hrest : rest.filter (fun p => p.fld = f) = [] := by
        rw [List.filter_eq_nil_iff]
        intro q hq hqf
        simp only [decide_eq_true_eq] at hqf
        exact hnd.1 (hp ▸ hqf ▸ List.mem_map_of_mem QPred.fld hq)
      simp [hp, hrest]
    · simp only [decide_eq_true_eq]
      simp [hp, ih hnd.2]

theorem fieldVal_perm {ps qs : List QPred} (hperm : ps.Perm qs)
    (hnd : (ps.map QPred.fld).Nodup) (f : QField) :
    fieldVal ps f = fieldVal qs f := by
  have hf : (ps.filter (fun p => p.fld = f)).Perm (qs.filter (fun p => p.fld = f)) :=
    hperm.filter _
  have hlen : (ps.filter (fun p => p.fld = f)).length ≤ 1 :=
    filter_fld_length_le f ps hnd
  unfold fieldVal
  interval_cases h : (ps.filter (fun p => p.fld = f)).length
  · have h1 : ps.filter (fun p => p.fld = f) = [] := List.length_eq_zero.mp h
    have h2 : qs.filter (fun p => p.fld = f) = [] := by
      have := hf.length_eq
      rw [h1] at this
      exact List.length_eq_zero.mp this.symm
    rw [h1, h2]
  · obtain ⟨a, ha⟩ := List.length_eq_one.mp h
    have h2 : qs.filter (fun p => p.fld = f) = [a] := by
      rw [ha] at hf
      exact List.perm_singleton.mp hf.symm
    rw [ha, h2]

/-- C4: for every combination of present predicates, the canonical cache
key concatenates them in the fixed order id, text, class; hence two
queries supplying the same predicate values in any construction order
canonicalize to the same key. -/
theorem element_key_canonical :
    (∀ ps qs : List QPred, ps.Perm qs → (ps.map QPred.fld).Nodup →
        keyOfPreds ps = keyOfPreds qs) ∧
    (∀ r t c : String, r ≠ "" → t ≠ "" → c ≠ "" →
        get_element_key (some r) (some t) (some c) =
          String.intercalate "_" ["id=" ++ r, "text=" ++ t, "class=" ++ c]) := by
  constructor
  · intro ps qs hperm hnd
    unfold keyOfPreds
    rw [fieldVal_perm hperm hnd .fid, fieldVal_perm hperm hnd .ftext,
      fieldVal_perm hperm hnd .fclass]
  · intro r t c hr ht hc
    have hr' : (r == "") = false := by simp [hr]
    have ht' : (t == "") = false := by simp [ht]
    have hc' : (c == "") = false := by simp [hc]
    simp [get_element_key, optPart, hr', ht', hc']

theorem element_key_canonical_witness :
    keyOfPreds [⟨.ftext, "a"⟩, ⟨.fid, "b"⟩] = keyOfPreds [⟨.fid, "b"⟩, ⟨.ftext, "a"⟩] ∧
    get_element_key (some "x") (some "y") (some "z") =
      String.intercalate "_" ["id=" ++ "x", "text=" ++ "y", "class=" ++ "z"] :=
  ⟨element_key_canonical.1 _ _ (by decide) (by decide),
   element_key_canonical.2 "x" "y" "z" (by decide) (by decide) (by decide)⟩

/-! ## C8: the toast-monitor state machine -/

/-- C8: the monitor has exactly the states Stopped/Running
(`is_monitoring_toast` false/true): `start` while Running is a no-op (no
second listener spawned), `start` while Stopped spawns one listener and
moves to Running, `stop` moves to Stopped, and an unrecoverable listener
fault also moves to Stopped. -/
theorem toast_monitor_state_machine :
    (∀ s : ToastMonitor, s.is_monitoring_toast = true → start_toast_monitor s = s) ∧
    (∀ s : ToastMonitor, s.is_monitoring_toast = false →
        start_toast_monitor s = ⟨true, s.spawned + 1⟩) ∧
    (∀ s : ToastMonitor, stop_toast_monitor s = ⟨false, s.spawned⟩) ∧
    (∀ s : ToastMonitor, monitor_toast_fault s = ⟨false, s.spawned⟩) := by
  refine ⟨?_, ?_, ?_, ?_⟩ <;> intro s
  · intro h; simp [start_toast_monitor, h]
  · intro h; simp [start_toast_monitor, h]
  · rfl
  · rfl

theorem toast_monitor_state_machine_witness :
    start_toast_monitor ⟨true, 5⟩ = ⟨true, 5⟩ ∧
    start_toast_monitor ⟨false, 5⟩ = ⟨true, 6⟩ ∧
    stop_toast_monitor ⟨true, 6⟩ = ⟨false, 6⟩ ∧
    monitor_toast_fault ⟨true, 6⟩ = ⟨false, 6⟩ :=
  ⟨toast_monitor_state_machine.1 ⟨true, 5⟩ rfl,
   toast_monitor_state_machine.2.1 ⟨false, 5⟩ rfl,
   toast_monitor_state_machine.2.2.1 ⟨true, 6⟩,
   toast_monitor_state_machine.2.2.2 ⟨true, 6⟩⟩

/-! ## C1: the cache fast path -/

/-- C1: once a query's canonical key is stored in the current screen's
cache, a `find_element` call while the resolver still reports that screen
returns exactly the stored coordinates, leaves the cache and the cache
directory untouched, and takes no tree snapshot. -/
theorem cached_element_fast_path
    (device : List Char) (cache : ActivityCache) (fs : CacheDir) (env : FindEnv)
    (resource_id text class_name : Option String) (coords : Int × Int)
    (hact : env.activity ≠ [])
    (hhit : assocFind (get_element_key resource_id text class_name)
        ((assocFind env.activity cache).getD []) = some coords) :
    find_element true device cache fs env resource_id text class_name =
      ⟨.ok coords, cache, fs, 0⟩ := by
  have hsome : (assocFind env.activity cache).isNone = false := by
    cases h : assocFind env.activity cache with
    | none => rw [h] at hhit; simp [assocFind] at hhit
    | some sc => rfl
  have hbeq : (env.activity == []) = false := by
    simpa using hact
  simp [find_element, hbeq, hsome, hhit]

theorem cached_element_fast_path_witness :
    find_element true (str "dev") [(str "Act", [("id=r", (3, 4))])] []
        ⟨str "Act", .mk "hierarchy" [] .nil⟩ (some "r") none none =
      ⟨.ok (3, 4), [(str "Act", [("id=r", (3, 4))])], [], 0⟩ :=
  cached_element_fast_path (str "dev") [(str "Act", [("id=r", (3, 4))])] []
    ⟨str "Act", .mk "hierarchy" [] .nil⟩ (some "r") none none (3, 4)
    (by decide) (by decide)

/-! ## C2: not-found propagation without cache mutation -/

/-- Helper: what `find_element` produces when the live search matches
nothing (and the query is not already cached, so the live path is taken):
a `notFound` `ValueError`, one snapshot, the cache directory untouched, and
at most the current screen's empty cache created in memory. -/
theorem find_element_zero_match (use_cache : Bool) (device : List Char)
    (cache : ActivityCache) (fs : CacheDir) (env : FindEnv)
    (resource_id text class_name : Option String)
    (hmiss : assocFind (get_element_key resource_id text class_name)
        ((assocFind env.activity cache).getD []) = none)
    (hzero : findNode env.root resource_id text class_name = .ok none) :
    find_element use_cache device cache fs env resource_id text class_name =
      ⟨.error .notFound,
        if (use_cache = true ∧ env.activity ≠ []) ∧ assocFind env.activity cache = none
          then assocPut env.activity [] cache else cache,
        fs, 1⟩ := by
  cases use_cache with
  | false => simp [find_element, hzero]
  | true =>
    by_cases hact : env.activity = []
    · simp [find_element, hact, hzero]
    · cases hopt : assocFind env.activity cache with
      | none =>
        have hput : assocFind env.activity (assocPut env.activity [] cache) =
            some [] := by
          rw [assocFind_put]; simp
        simp [find_element, hact, hopt, hput, assocFind_nil, hzero]
      | some sc =>
        rw [hopt] at hmiss
        simp only [Option.getD_some] at hmiss
        simp [find_element, hact, hopt, hmiss, hzero]

/-- C2 counterexample: with two present predicates the built XPath joins
its conditions with `" and "`, which ElementTree's predicate parser
rejects, so on a tree that the query matches zero times (here: a tree with
no elements at all) `find_element` raises an uncaught
`SyntaxError: invalid predicate` — not the not-found `ValueError` — and
`check_element_exists`'s `except ValueError` does not convert it to false
but lets it escape. -/
theorem not_found_counterexample :
    (UITree.mk "hierarchy" [] .nil).descendants = [] ∧
    (find_element false [] [] [] ⟨[], .mk "hierarchy" [] .nil⟩
        (some "r") (some "t") none).result = .error .syntaxError ∧
    check_element_exists false [] [] [] ⟨[], .mk "hierarchy" [] .nil⟩
        (some "r") (some "t") none = .error .syntaxError :=
  ⟨rfl, rfl, rfl⟩

/-- C2 (amended): for a query with at most one present predicate (the only
queries whose XPath ElementTree accepts — `hzero`'s `.ok` encodes that the
search actually ran), whose value is quote-free, matching zero nodes in
the live tree: `find_element` raises the not-found `ValueError`,
`check_element_exists` returns false, no element entry is added to any
screen cache and nothing is persisted.  (The query's key must not already
be cached: a stale hit would short-circuit the live search, which the spec
documents separately as the accepted trust-on-write behaviour of the
cache.) -/
theorem not_found_propagation (use_cache : Bool) (device : List Char)
    (cache : ActivityCache) (fs : CacheDir) (env : FindEnv)
    (resource_id text class_name : Option String)
    (_hq1 : noQuote resource_id = true) (_hq2 : noQuote text = true)
    (_hq3 : noQuote class_name = true)
    (hmiss : assocFind (get_element_key resource_id text class_name)
        ((assocFind env.activity cache).getD []) = none)
    (hzero : findNode env.root resource_id text class_name = .ok none) :
    (find_element use_cache device cache fs env resource_id text class_name).result
        = .error .notFound ∧
    (find_element use_cache device cache fs env resource_id text class_name).fs
        = fs ∧
    (∀ (s : List Char) (k : String),
        assocFind k ((assocFind s (find_element use_cache device cache fs env
            resource_id text class_name).cache).getD []) =
          assocFind k ((assocFind s cache).getD [])) ∧
    check_element_exists use_cache device cache fs env resource_id text class_name
        = .ok false := by
  have hfe := find_element_zero_match use_cache device cache fs env
    resource_id text class_name hmiss hzero
  refine ⟨by rw [hfe], by rw [hfe], ?_, ?_⟩
  · intro s k
    rw [hfe]
    by_cases hcond :
        (use_cache = true ∧ env.activity ≠ []) ∧ assocFind env.activity cache = none
    · rw [if_pos hcond, assocFind_put]
      by_cases hs : env.activity = s
      · subst hs
        simp [hcond.2, assocFind_nil]
      · simp [hs]
    · rw [if_neg hcond]
  · unfold check_element_exists
    rw [hfe]

theorem not_found_propagation_witness :
    ((find_element true (str "dev") [] [] ⟨str "Act", .mk "hierarchy" [] .nil⟩
        (some "r") none none).result = .error .notFound) ∧
    ((find_element true (str "dev") [] [] ⟨str "Act", .mk "hierarchy" [] .nil⟩
        (some "r") none none).fs = []) ∧
    (assocFind "id=r" ((assocFind (str "Act") (find_element true (str "dev") [] []
        ⟨str "Act", .mk "hierarchy" [] .nil⟩ (some "r") none none).cache).getD [])
      = assocFind "id=r" ((assocFind (str "Act") ([] : ActivityCache)).getD [])) ∧
    check_element_exists true (str "dev") [] [] ⟨str "Act", .mk "hierarchy" [] .nil⟩
        (some "r") none none = .ok false :=
  have h := not_found_propagation true (str "dev") [] []
    ⟨str "Act", .mk "hierarchy" [] .nil⟩ (some "r") none none
    (by decide) rfl rfl rfl rfl
  ⟨h.1, h.2.1, h.2.2.1 (str "Act") "id=r", h.2.2.2⟩

/-! ## C5: midpoint computation -/

/-- Helper: on the live (cache-off) path, a matched node whose bounds
parse as two corners makes `find_element` return the floor-division
midpoint. -/
theorem find_element_live_midpoint
    (device : List Char) (cache : ActivityCache) (fs : CacheDir) (env : FindEnv)
    (resource_id text class_name : Option String) (el : UITree) (x1 y1 x2 y2 : Int)
    (hfind : findNode env.root resource_id text class_name = .ok (some el))
    (hbounds : pyParseBounds (str (attrGetD el "bounds" "[]")) = .ok ((x1, y1), (x2, y2))) :
    (find_element false device cache fs env resource_id text class_name).result =
      .ok (Int.fdiv (x1 + x2) 2, Int.fdiv (y1 + y2) 2) := by
  simp [find_element, hfind, hbounds]

/-- C5: whenever the matched node's bounds string parses as
`[x1,y1][x2,y2]`, the locator returns the floor-division midpoint
`((x1+x2)//2, (y1+y2)//2)`; in particular `[10,20][30,60]` yields
`(20, 40)` and `[0,0][1,1]` yields `(0, 0)`. -/
theorem midpoint_computation :
    (∀ (device : List Char) (cache : ActivityCache) (fs : CacheDir) (env : FindEnv)
        (resource_id text class_name : Option String) (el : UITree) (x1 y1 x2 y2 : Int),
        noQuote resource_id = true → noQuote text = true →
        noQuote class_name = true →
        findNode env.root resource_id text class_name = .ok (some el) →
        pyParseBounds (str (attrGetD el "bounds" "[]")) = .ok ((x1, y1), (x2, y2)) →
        (find_element false device cache fs env resource_id text class_name).result =
          .ok (Int.fdiv (x1 + x2) 2, Int.fdiv (y1 + y2) 2)) ∧
    (find_element false [] [] [] ⟨[], .mk "hierarchy" []
        (.cons (.mk "node" [("bounds", "[10,20][30,60]")] .nil) .nil)⟩
      none none none).result = .ok (20, 40) ∧
    (find_element false [] [] [] ⟨[], .mk "hierarchy" []
        (.cons (.mk "node" [("bounds", "[0,0][1,1]")] .nil) .nil)⟩
      none none none).result = .ok (0, 0) := by
  refine ⟨?_, rfl, rfl⟩
  intro device cache fs env resource_id text class_name el x1 y1 x2 y2 _ _ _ hfind hbounds
  exact find_element_live_midpoint device cache fs env resource_id text class_name
    el x1 y1 x2 y2 hfind hbounds

theorem midpoint_computation_witness :
    (find_element false (str "d") [] [] ⟨[], .mk "hierarchy" []
        (.cons (.mk "node" [("bounds", "[2,3][7,10]")] .nil) .nil)⟩
      none none none).result = .ok (Int.fdiv (2 + 7) 2, Int.fdiv (3 + 10) 2) :=
  midpoint_computation.1 (str "d") [] [] ⟨[], .mk "hierarchy" []
      (.cons (.mk "node" [("bounds", "[2,3][7,10]")] .nil) .nil)⟩
    none none none (.mk "node" [("bounds", "[2,3][7,10]")] .nil) 2 3 7 10
    rfl rfl rfl rfl rfl

/-! ## C10: a query with no predicates degenerates to an unconditioned
node search (corrected: the claim promises a midpoint on *every* non-empty
tree, but a first node whose bounds attribute is absent or unparseable
makes the call raise a bounds `ValueError` instead) -/

theorem find_ext {α : Type} (p q : α → Bool) (h : ∀ a, p a = q a) :
    ∀ l : List α, l.find? p = l.find? q := by
  intro l
  induction l with
  | nil => rfl
  | cons a l ih => rw [List.find?_cons, List.find?_cons, h a, ih]

theorem condPart_absent (key : String) {v : Option String}
    (h : present v = false) : condPart key v = [] := by
  cases v with
  | none => rfl
  | some s =>
    have hs : (s == "") = true := by
      simpa [present] using h
    simp [condPart, hs]

/-- C10 counterexample: on a non-empty UI tree whose first (and only)
`node` element carries no bounds attribute, a predicate-free
`find_element` raises a bounds `ValueError` — it does not return the
midpoint of the first node in document order. -/
theorem no_predicate_counterexample :
    (find_element false [] [] [] ⟨[], .mk "hierarchy" []
        (.cons (.mk "node" [] .nil) .nil)⟩ none none none).result =
      .error .valueError := rfl

/-- C10 (amended): a query with no present predicates (each of the three
arguments `None` or the empty string) is not rejected — the filter
degenerates to an unconditioned `node` search — and whenever the first
`node` element in document order has a parseable bounds string the call
returns its midpoint.  (When that node's bounds are missing or
unparseable, the call raises the bounds `ValueError` of
`no_predicate_counterexample` instead.) -/
theorem no_predicate_unconditioned_search
    (device : List Char) (cache : ActivityCache) (fs : CacheDir) (env : FindEnv)
    (resource_id text class_name : Option String) (el : UITree) (x1 y1 x2 y2 : Int)
    (h1 : present resource_id = false) (h2 : present text = false)
    (h3 : present class_name = false)
    (hfirst : env.root.descendants.find? (fun t => t.tag == "node") = some el)
    (hbounds : pyParseBounds (str (attrGetD el "bounds" "[]")) = .ok ((x1, y1), (x2, y2))) :
    (find_element false device cache fs env resource_id text class_name).result =
      .ok (Int.fdiv (x1 + x2) 2, Int.fdiv (y1 + y2) 2) := by
  have hconds : queryConds resource_id text class_name = [] := by
    unfold queryConds
    rw [condPart_absent "resource-id" h1, condPart_absent "text" h2,
      condPart_absent "class" h3]
    rfl
  have hq : ∀ t : UITree,
      (t.tag == "node" && List.all [] (attrMatches t)) = (t.tag == "node") := by
    intro t
    simp
  have hfn : findNode env.root resource_id text class_name =
      .ok (env.root.descendants.find? (fun t => t.tag == "node")) := by
    simp only [findNode, hconds, List.length_nil]
    rw [if_neg (by omega)]
    rw [find_ext _ _ hq]
  exact find_element_live_midpoint device cache fs env resource_id text class_name
    el x1 y1 x2 y2 (by rw [hfn, hfirst]) hbounds

theorem no_predicate_unconditioned_search_witness :
    (find_element false (str "d") [] [] ⟨[], .mk "hierarchy" []
        (.cons (.mk "node" [("bounds", "[4,4][8,9]")] .nil) .nil)⟩
      (some "") (some "") none).result =
      .ok (Int.fdiv (4 + 8) 2, Int.fdiv (4 + 9) 2) :=
  no_predicate_unconditioned_search (str "d") [] []
    ⟨[], .mk "hierarchy" [] (.cons (.mk "node" [("bounds", "[4,4][8,9]")] .nil) .nil)⟩
    (some "") (some "") none (.mk "node" [("bounds", "[4,4][8,9]")] .nil)
    4 4 8 9 rfl rfl rfl rfl rfl

/-! ## C6: `wait_for_toast` hands every inner pop the full original timeout -/

/-- C6: `wait_for_toast` repeatedly pops from the toast queue, each inner
`get_toast` receiving the original full timeout rather than the remaining
budget; it returns true on the first popped message containing the
expected substring, and false once the cumulative elapsed time reaches the
timeout without one.  The middle conjunct exhibits the original-timeout
behaviour: with timeout 10, a non-matching toast at t = 9 is popped, and
the second pop then blocks a further full 10 seconds, so the call returns
false only at t = 19. -/
theorem wait_for_toast_behavior :
    (∀ (expected m : String) (timeout t : ℚ) (rest : List (ℚ × String))
        (now : ℚ) (fuel : Nat),
        0 < timeout → t ≤ now + timeout → m ≠ "" →
        hasSeq (str expected) (str m) = true →
        wait_for_toast expected timeout (fuel + 1) ⟨now, (t, m) :: rest⟩ =
          some (true, ⟨max now t, rest⟩)) ∧
    wait_for_toast "ok" 10 4 ⟨0, [(9, "no")]⟩ = some (false, ⟨19, []⟩) ∧
    (∀ (expected : String) (timeout now : ℚ) (fuel : Nat), 0 < timeout →
        wait_for_toast expected timeout (fuel + 2) ⟨now, []⟩ =
          some (false, ⟨now + timeout, []⟩)) := by
  refine ⟨?_, ?_, ?_⟩
  case refine_2 =>
    norm_num [wait_for_toast, wait_for_toast_loop, get_toast, str, hasSeq,
      leadsWith, max_def]
    decide
  · intro expected m timeout t rest now fuel h0 ht hm hsub
    have hm' : (m == "") = false := by simpa using hm
    simp [wait_for_toast, wait_for_toast_loop, get_toast, h0, ht, hm', hsub]
  · intro expected timeout now fuel h0
    rw [wait_for_toast, wait_for_toast_loop]
    rw [if_pos (by simpa using h0)]
    simp only [get_toast]
    rw [wait_for_toast_loop]
    rw [if_neg (by simp)]

theorem wait_for_toast_behavior_witness :
    wait_for_toast "a" 5 3 ⟨0, [(1, "ab")]⟩ = some (true, ⟨max 0 1, []⟩) ∧
    wait_for_toast "x" 5 6 ⟨2, []⟩ = some (false, ⟨2 + 5, []⟩) :=
  ⟨wait_for_toast_behavior.1 "a" "ab" 5 1 [] 0 2 (by norm_num) (by norm_num)
      (by decide) (by decide),
   wait_for_toast_behavior.2.2 "x" 5 2 4 (by norm_num)⟩

/-! ## C7: listener failures are isolated -/

/-- C7: for a toast event line processed by the listener loop with
registered listeners `[L1, L2]` where `L1` raises on every call, the toast
text is still enqueued, `L2` is still invoked with the same message, and
the exception is only logged (the per-listener outcome list records it),
leaving the loop to continue. -/
theorem toast_listener_isolation
    (line toast_text : List Char) (queue : List (List Char))
    (L1 L2 : ToastListener)
    (hmark1 : hasSeq (str "TYPE_NOTIFICATION_STATE_CHANGED") line = true)
    (hmark2 : hasSeq (str "ClassName: android.widget.Toast") line = true)
    (hparse : parse_toast_text line = some toast_text)
    (hraise : ∀ t : List Char, ∃ e : String, L1 t = .error e) :
    monitorToastLine line [L1, L2] queue =
      (queue ++ [toast_text], [invokeListener L1 toast_text, invokeListener L2 toast_text]) ∧
    (invokeListener L1 toast_text).isSome = true := by
  constructor
  · simp [monitorToastLine, hmark1, hmark2, hparse]
  · obtain ⟨e, he⟩ := hraise toast_text
    simp [invokeListener, he]

theorem toast_listener_isolation_witness :
    (monitorToastLine (str "EventType: TYPE_NOTIFICATION_STATE_CHANGED; ClassName: android.widget.Toast; Text: [hi];")
        [fun _ => .error "boom", fun _ => .ok ()] [str "old"] =
      ([str "old", str "hi"],
        [invokeListener (fun _ => .error "boom") (str "hi"),
         invokeListener (fun _ => .ok ()) (str "hi")])) ∧
    (invokeListener (fun _ => .error "boom") (str "hi")).isSome = true :=
  toast_listener_isolation
    (str "EventType: TYPE_NOTIFICATION_STATE_CHANGED; ClassName: android.widget.Toast; Text: [hi];")
    (str "hi") [str "old"] (fun _ => .error "boom") (fun _ => .ok ())
    (by decide) (by decide) (by decide) (fun t => ⟨"boom", rfl⟩)

/-! ## C3: save/load round trip for cache units -/

theorem leadsWith_self_append : ∀ p r : List Char, leadsWith p (p ++ r) = true := by
  intro p
  induction p with
  | nil => intro r; rfl
  | cons c cs ih => intro r; simp [leadsWith, ih]

theorem trailsWith_append (pat x : List Char) : trailsWith pat (x ++ pat) = true := by
  unfold trailsWith
  rw [List.reverse_append]
  exact leadsWith_self_append _ _

/-- A filename `device ++ "_" ++ rest` does not look like a scratch file
when the device id is underscore-free and is not literally `temp`. -/
theorem leadsWith_temp_false :
    ∀ device : List Char, '_' ∉ device → device ≠ str "temp" →
      ∀ rest : List Char, leadsWith (str "temp_") (device ++ '_' :: rest) = false
  | [], _, _, rest => by simp [str, leadsWith]
  | [a], _, _, rest => by
    simp only [str, leadsWith, List.cons_append, List.nil_append]
    simp [show ('e' == '_') = false from rfl]
  | [a, b], _, _, rest => by
    simp only [str, leadsWith, List.cons_append, List.nil_append]
    simp [show ('m' == '_') = false from rfl]
  | [a, b, c], _, _, rest => by
    simp only [str, leadsWith, List.cons_append, List.nil_append]
    simp [show ('p' == '_') = false from rfl]
  | [a, b, c, d], h1, h2, rest => by
    simp only [str, leadsWith, List.cons_append, List.nil_append]
    simp only [beq_iff_eq, Bool.and_eq_false_imp]
    intro ha hb hc hd
    exact absurd (by rw [← ha, ← hb, ← hc, ← hd]; rfl) h2
  | a :: b :: c :: d :: e :: ds, h1, _, rest => by
    simp only [str, leadsWith, List.cons_append]
    simp only [beq_iff_eq, Bool.and_eq_false_imp]
    intro ha hb hc hd he
    exact absurd (by rw [← he]; exact List.mem_cons_of_mem _ (List.mem_cons_of_mem _
      (List.mem_cons_of_mem _ (List.mem_cons_of_mem _ (List.mem_cons_self _ _)))))
      h1

/-- `".json"` has no non-trivial border, so an occurrence of it at the head
of `s ++ ".json"` forces an occurrence at the head of `s` (or `s = []`). -/
theorem leadsWith_json_split :
    ∀ s : List Char, leadsWith (str ".json") (s ++ str ".json") = true →
      s = [] ∨ leadsWith (str ".json") s = true
  | [], _ => Or.inl rfl
  | [a], h => by
    simp only [str, leadsWith, List.cons_append, List.nil_append] at h
    simp [show ('j' == '.') = false from rfl] at h
  | [a, b], h => by
    simp only [str, leadsWith, List.cons_append, List.nil_append] at h
    simp [show ('s' == '.') = false from rfl] at h
  | [a, b, c], h => by
    simp only [str, leadsWith, List.cons_append, List.nil_append] at h
    simp [show ('o' == '.') = false from rfl] at h
  | [a, b, c, d], h => by
    simp only [str, leadsWith, List.cons_append, List.nil_append] at h
    simp [show ('n' == '.') = false from rfl] at h
  | a :: b :: c :: d :: e :: ds, h => by
    right
    simp only [str, leadsWith, List.cons_append] at h ⊢
    simp only [Bool.and_eq_true, beq_iff_eq] at h ⊢
    exact ⟨h.1, h.2.1, h.2.2.1, h.2.2.2.1, h.2.2.2.2.1, trivial⟩

/-- Dropping every `".json"` from `s ++ ".json"` yields `s` when `s`
itself contains no `".json"`. -/
theorem replaceAllF_json :
    ∀ (fuel : Nat) (s : List Char), s.length + 5 ≤ fuel →
      hasSeq (str ".json") s = false →
      replaceAllF (str ".json") [] fuel (s ++ str ".json") = s := by
  intro fuel
  induction fuel with
  | zero => intro s hlen; omega
  | succ fuel ih =>
    intro s hlen hocc
    cases s with
    | nil =>
      simp only [List.nil_append]
      rw [replaceAllF.eq_def]
      simp [str, leadsWith, replaceAllF]
    | cons c cs =>
      have hnl : leadsWith (str ".json") (c :: (cs ++ str ".json")) = false := by
        rw [← List.cons_append]
        cases hlw : leadsWith (str ".json") ((c :: cs) ++ str ".json") with
        | false => rfl
        | true =>
          rcases leadsWith_json_split (c :: cs) hlw with h | h
          · exact absurd h (by simp)
          · rw [hasSeq, h] at hocc
            simp at hocc
      have hocc' : hasSeq (str ".json") cs = false := by
        rw [hasSeq, Bool.or_eq_false_iff] at hocc
        exact hocc.2
      have hlen' : cs.length + 5 ≤ fuel := by
        simp only [List.length_cons] at hlen
        omega
      simp only [List.cons_append]
      rw [replaceAllF.eq_def]
      simp only [hnl, Bool.false_eq_true, if_false]
      rw [ih cs hlen' hocc']

theorem pySplit1_no_sep (sep : Char) :
    ∀ a b : List Char, sep ∉ a → pySplit1 sep (a ++ sep :: b) = (a, some b) := by
  intro a
  induction a with
  | nil => intro b _; simp [pySplit1]
  | cons c cs ih =>
    intro b hmem
    have hc : (c == sep) = false := by
      simp only [beq_eq_false_iff_ne, ne_eq]
      intro h
      exact hmem (h ▸ List.mem_cons_self c cs)
    simp only [List.cons_append, pySplit1, hc, Bool.false_eq_true, if_false,
      List.append_eq]
    rw [ih b (fun h => hmem (List.mem_cons_of_mem c h))]

/-- C3 counterexample: with the device identifier `a_b` (an underscore
inside the device id), a saved cache unit exists in the directory, but a
fresh load for the same device splits the filename at the *first*
underscore, attributes the unit to device `a`, and loads nothing. -/
theorem cache_roundtrip_counterexample :
    save_activity_cache true (str "a_b") (str "Act") [("k", (1, 2))] [] =
      [(str "a_b_Act.json", [("k", (1, 2))])] ∧
    preload_activity_cache true (str "a_b")
      (save_activity_cache true (str "a_b") (str "Act") [("k", (1, 2))] []) = [] := by
  constructor
  · rfl
  · rfl

/-- C3 (amended): `save` followed by a fresh `load` for the same device
reproduces the saved screen→key→coordinates mapping, provided the device
identifier contains no underscore, is not literally `temp`, and the
`<device>_<sanitized screen>` stem contains no `".json"` substring (load
strips every occurrence, not just the extension).  The reproduced screen
key is the sanitized identity that `save` itself uses. -/
theorem cache_roundtrip (device act : List Char) (data : ScreenCache)
    (h1 : '_' ∉ device) (h2 : device ≠ str "temp")
    (h3 : hasSeq (str ".json") (device ++ '_' :: sanitize_activity_name act) = false) :
    assocFind (sanitize_activity_name act)
      (preload_activity_cache true device
        (save_activity_cache true device act data [])) = some data := by
  set A := sanitize_activity_name act with hA
  have hsave : save_activity_cache true device act data [] =
      [(device ++ '_' :: (A ++ str ".json"), data)] := rfl
  rw [hsave]
  have hname : device ++ '_' :: (A ++ str ".json") =
      (device ++ '_' :: A) ++ str ".json" := by
    simp
  have hcond : (trailsWith (str ".json") (device ++ '_' :: (A ++ str ".json")) &&
      !leadsWith (str "temp_") (device ++ '_' :: (A ++ str ".json"))) = true := by
    rw [Bool.and_eq_true]
    refine ⟨?_, ?_⟩
    · rw [hname]
      exact trailsWith_append _ _
    · rw [leadsWith_temp_false device h1 h2 (A ++ str ".json")]
      rfl
  have hstem : replaceAll (str ".json") [] (device ++ '_' :: (A ++ str ".json")) =
      device ++ '_' :: A := by
    unfold replaceAll
    rw [hname]
    refine replaceAllF_json _ _ ?_ h3
    simp only [List.length_append, List.length_cons,
      show (str ".json").length = 5 from rfl]
    omega
  have hsplit := pySplit1_no_sep '_' device A h1
  simp [preload_activity_cache, preloadStep, hcond, hstem, hsplit,
    assocPut, assocFind]

theorem cache_roundtrip_witness :
    assocFind (sanitize_activity_name (str "com.app/com.app.Main t12"))
      (preload_activity_cache true (str "emulator-5554")
        (save_activity_cache true (str "emulator-5554")
          (str "com.app/com.app.Main t12") [("id=r", (3, 4))] [])) =
      some [("id=r", (3, 4))] :=
  cache_roundtrip (str "emulator-5554") (str "com.app/com.app.Main t12")
    [("id=r", (3, 4))] (by decide) (by decide) (by decide)

/-! ## C9: idempotence of screen-identity sanitization

The key fact is that the output of `removeTaskIds` contains no match of
`\s*/?\s*t\d+` at any position (`matchFree`), and that replacing illegal
characters by `_` cannot create a match; a second sanitization pass is
then the identity. -/

/-- Is the head, if any, a non-digit?  This holds of the rest after any
greedy `\d+` run and is what blocks a new `t\d+` match from forming at a
seam left by a removed match. -/
def headND : List Char → Bool
  | [] => true
  | c :: _ => !isDigitC c

theorem headND_dropWhile_digits (l : List Char) :
    headND (l.dropWhile isDigitC) = true := by
  induction l with
  | nil => rfl
  | cons c cs ih =>
    rw [List.dropWhile_cons]
    split
    · exact ih
    · next h => simp [headND, h]

theorem matchTD_not_t {c : Char} (h : (c == 't') = false) (cs : List Char) :
    matchTD (c :: cs) = none := by
  simp only [matchTD, h]
  simp

theorem matchTD_t_cons (d : Char) (ds : List Char) :
    matchTD ('t' :: d :: ds) =
      if isDigitC d then some ((d :: ds).dropWhile isDigitC) else none := rfl

theorem matchTD_length : ∀ {l r : List Char}, matchTD l = some r →
    r.length < l.length := by
  intro l r h
  cases l with
  | nil => cases h
  | cons c cs =>
    by_cases hct : (c == 't') = true
    · have hc : c = 't' := by simpa using hct
      subst hc
      cases cs with
      | nil => cases h
      | cons d ds =>
        rw [matchTD_t_cons] at h
        by_cases hd : isDigitC d = true
        · rw [if_pos hd] at h
          injection h with h'
          subst h'
          have := dropWhile_length_le isDigitC (d :: ds)
          simp only [List.length_cons] at this ⊢
          omega
        · rw [if_neg hd] at h
          cases h
    · rw [matchTD_not_t (by simpa using hct)] at h
      cases h

theorem matchTD_headND : ∀ {l r : List Char}, matchTD l = some r →
    headND r = true := by
  intro l r h
  cases l with
  | nil => cases h
  | cons c cs =>
    by_cases hct : (c == 't') = true
    · have hc : c = 't' := by simpa using hct
      subst hc
      cases cs with
      | nil => cases h
      | cons d ds =>
        rw [matchTD_t_cons] at h
        by_cases hd : isDigitC d = true
        · rw [if_pos hd] at h
          injection h with h'
          subst h'
          exact headND_dropWhile_digits _
        · rw [if_neg hd] at h
          cases h
    · rw [matchTD_not_t (by simpa using hct)] at h
      cases h

/-- `matchTaskId` written as its one-step unfolding. -/
theorem matchTaskId_eq (l : List Char) :
    matchTaskId l =
      match l.dropWhile isWs with
      | [] => none
      | c :: rest =>
        if c == '/' then matchTD (rest.dropWhile isWs) else matchTD (c :: rest) := rfl

theorem matchTaskId_length : ∀ {l r : List Char}, matchTaskId l = some r →
    r.length < l.length := by
  intro l r h
  rw [matchTaskId_eq] at h
  have hws : (l.dropWhile isWs).length ≤ l.length := dropWhile_length_le _ _
  cases hd : l.dropWhile isWs with
  | nil => rw [hd] at h; cases h
  | cons c rest =>
    rw [hd] at h hws
    simp only [List.length_cons] at hws
    change (if c == '/' then matchTD (rest.dropWhile isWs)
      else matchTD (c :: rest)) = some r at h
    split at h
    · have h2 : (rest.dropWhile isWs).length ≤ rest.length := dropWhile_length_le _ _
      have h3 := matchTD_length h
      omega
    · have h3 := matchTD_length h
      simp only [List.length_cons] at h3
      omega

theorem matchTaskId_headND : ∀ {l r : List Char}, matchTaskId l = some r →
    headND r = true := by
  intro l r h
  rw [matchTaskId_eq] at h
  cases hd : l.dropWhile isWs with
  | nil => rw [hd] at h; cases h
  | cons c rest =>
    rw [hd] at h
    change (if c == '/' then matchTD (rest.dropWhile isWs)
      else matchTD (c :: rest)) = some r at h
    split at h
    · exact matchTD_headND h
    · exact matchTD_headND h

theorem matchTaskId_nil : matchTaskId [] = none := rfl

theorem removeTaskIdsF_succ (fuel : Nat) (l : List Char) :
    removeTaskIdsF (fuel + 1) l =
      match matchTaskId l with
      | some r => removeTaskIdsF fuel r
      | none =>
        match l with
        | [] => []
        | c :: cs => c :: removeTaskIdsF fuel cs := rfl

theorem matchTaskId_ws {c : Char} (h : isWs c = true) (y : List Char) :
    matchTaskId (c :: y) = matchTaskId y := by
  rw [matchTaskId_eq, matchTaskId_eq, List.dropWhile_cons, if_pos h]

theorem matchTaskId_cons_not_ws {c : Char} (h : isWs c = false) (y : List Char) :
    matchTaskId (c :: y) =
      if c == '/' then matchTD (y.dropWhile isWs) else matchTD (c :: y) := by
  rw [matchTaskId_eq, List.dropWhile_cons, if_neg (by simp [h])]

theorem matchTaskId_slash_none {y : List Char} (h : matchTaskId y = none) :
    matchTaskId ('/' :: y) = none := by
  rw [@matchTaskId_cons_not_ws '/' rfl y,
    if_pos (show (('/' : Char) == '/') = true from rfl)]
  cases hd : y.dropWhile isWs with
  | nil => rfl
  | cons c rest =>
    by_cases hc : (c == '/') = true
    · have hcc : c = '/' := by simpa using hc
      subst hcc
      rfl
    · have hy : matchTaskId y = matchTD (c :: rest) := by
        rw [matchTaskId_eq, hd]
        exact if_neg hc
      rw [← hy]
      exact h

theorem matchTaskId_t_none {y : List Char} (h : headND y = true) :
    matchTaskId ('t' :: y) = none := by
  rw [@matchTaskId_cons_not_ws 't' rfl y, if_neg (by decide)]
  cases y with
  | nil => rfl
  | cons d ds =>
    rw [matchTD_t_cons]
    simp only [headND, Bool.not_eq_eq_eq_not, Bool.not_true] at h
    simp [h]

theorem matchTaskId_other_none {c : Char} (h1 : isWs c = false)
    (h2 : (c == '/') = false) (h3 : (c == 't') = false) (y : List Char) :
    matchTaskId (c :: y) = none := by
  rw [matchTaskId_cons_not_ws h1, if_neg (by simp [h2])]
  exact matchTD_not_t h3 y

theorem headND_of_matchTaskId_t_none {cs : List Char}
    (h : matchTaskId ('t' :: cs) = none) : headND cs = true := by
  cases cs with
  | nil => rfl
  | cons d ds =>
    rw [@matchTaskId_cons_not_ws 't' rfl (d :: ds), if_neg (by decide),
      matchTD_t_cons] at h
    by_cases hd : isDigitC d = true
    · rw [if_pos hd] at h
      cases h
    · simp only [headND, Bool.not_eq_eq_eq_not, Bool.not_true]
      simpa using hd

/-- No position of `l` starts a `\s*/?\s*t\d+` match. -/
def matchFree (l : List Char) : Prop :=
  ∀ s : List Char, s <:+ l → matchTaskId s = none

theorem matchFree_nil : matchFree [] := by
  intro s hs
  rw [List.suffix_nil.mp hs]
  rfl

theorem matchFree_of_cons {c : Char} {l : List Char} (h : matchFree (c :: l)) :
    matchFree l := fun s hs => h s (hs.trans (List.suffix_cons c l))

theorem removeTaskIdsF_headND : ∀ (fuel : Nat) (l : List Char),
    headND l = true → headND (removeTaskIdsF fuel l) = true := by
  intro fuel
  induction fuel with
  | zero => intro l h; exact h
  | succ fuel ih =>
    intro l h
    cases hm : matchTaskId l with
    | some r =>
      rw [removeTaskIdsF_succ, hm]
      exact ih r (matchTaskId_headND hm)
    | none =>
      rw [removeTaskIdsF_succ, hm]
      cases l with
      | nil => rfl
      | cons c cs =>
        show headND (c :: removeTaskIdsF fuel cs) = true
        simpa [headND] using h

/-- The crux: the output of the task-id removal pass is match-free. -/
theorem removeTaskIdsF_matchFree : ∀ (fuel : Nat) (l : List Char),
    l.length ≤ fuel → matchFree (removeTaskIdsF fuel l) := by
  intro fuel
  induction fuel with
  | zero =>
    intro l hl
    have hnil : l = [] := List.length_eq_zero.mp (Nat.le_zero.mp hl)
    subst hnil
    exact matchFree_nil
  | succ fuel ih =>
    intro l hl
    cases hm : matchTaskId l with
    | some r =>
      rw [removeTaskIdsF_succ, hm]
      exact ih r (by have := matchTaskId_length hm; omega)
    | none =>
      cases l with
      | nil =>
        rw [removeTaskIdsF_succ, hm]
        exact matchFree_nil
      | cons c cs =>
        rw [removeTaskIdsF_succ, hm]
        have hcs : matchFree (removeTaskIdsF fuel cs) := by
          refine ih cs ?_
          simp only [List.length_cons] at hl
          omega
        show matchFree (c :: removeTaskIdsF fuel cs)
        intro s hs
        rcases List.suffix_cons_iff.mp hs with rfl | hs'
        · have hR : matchTaskId (removeTaskIdsF fuel cs) = none :=
            hcs _ (List.suffix_refl _)
          by_cases hw : isWs c = true
          · rw [matchTaskId_ws hw]
            exact hR
          · by_cases hsl : (c == '/') = true
            · have hc : c = '/' := by simpa using hsl
              subst hc
              exact matchTaskId_slash_none hR
            · by_cases ht : (c == 't') = true
              · have hc : c = 't' := by simpa using ht
                subst hc
                have hnd : headND cs = true := headND_of_matchTaskId_t_none hm
                exact matchTaskId_t_none (removeTaskIdsF_headND fuel cs hnd)
              · exact matchTaskId_other_none (by simpa using hw)
                  (by simpa using hsl) (by simpa using ht) _
        · exact hcs s hs'

/-- On a match-free string the removal pass is the identity. -/
theorem removeTaskIdsF_id : ∀ (fuel : Nat) (l : List Char), matchFree l →
    removeTaskIdsF fuel l = l := by
  intro fuel
  induction fuel with
  | zero => intro l _; rfl
  | succ fuel ih =>
    intro l hl
    have hm : matchTaskId l = none := hl l (List.suffix_refl l)
    rw [removeTaskIdsF_succ, hm]
    cases l with
    | nil => rfl
    | cons c cs =>
      show c :: removeTaskIdsF fuel cs = c :: cs
      rw [ih cs (matchFree_of_cons hl)]

theorem illegal_enum {c : Char} (h : isIllegalFileChar c = true) :
    c = '\\' ∨ c = '/' ∨ c = ':' ∨ c = '*' ∨ c = '?' ∨ c = '"' ∨ c = '<' ∨
      c = '>' ∨ c = '|' := by
  simp only [isIllegalFileChar, Bool.or_eq_true, beq_iff_eq] at h
  tauto

theorem isWs_legalize (c : Char) : isWs (legalize c) = isWs c := by
  unfold legalize
  split
  · next h =>
    rcases illegal_enum h with rfl | rfl | rfl | rfl | rfl | rfl | rfl | rfl | rfl
      <;> rfl
  · rfl

theorem legalize_ne_slash (c : Char) : (legalize c == '/') = false := by
  unfold legalize
  split
  · rfl
  · next h =>
    by_cases hc : c = '/'
    · subst hc
      exact absurd rfl h
    · simpa using hc

theorem legalize_t (c : Char) : (legalize c == 't') = (c == 't') := by
  unfold legalize
  split
  · next h =>
    rcases illegal_enum h with rfl | rfl | rfl | rfl | rfl | rfl | rfl | rfl | rfl
      <;> rfl
  · rfl

theorem isDigitC_legalize (c : Char) : isDigitC (legalize c) = isDigitC c := by
  unfold legalize
  split
  · next h =>
    rcases illegal_enum h with rfl | rfl | rfl | rfl | rfl | rfl | rfl | rfl | rfl
      <;> rfl
  · rfl

theorem legalize_idem (c : Char) : legalize (legalize c) = legalize c := by
  by_cases h : isIllegalFileChar c = true
  · simp [legalize, h, show isIllegalFileChar '_' = false from rfl]
  · simp [legalize, h]

theorem dropWhile_isWs_map_legalize (l : List Char) :
    (l.map legalize).dropWhile isWs = (l.dropWhile isWs).map legalize := by
  induction l with
  | nil => rfl
  | cons c cs ih =>
    by_cases h : isWs c = true
    · simp [List.dropWhile_cons, isWs_legalize, h, ih]
    · simp [List.dropWhile_cons, isWs_legalize, h]

theorem matchTD_map_none : ∀ {y : List Char}, matchTD y = none →
    matchTD (y.map legalize) = none := by
  intro y h
  cases y with
  | nil => rfl
  | cons c cs =>
    by_cases hct : (c == 't') = true
    · have hc : c = 't' := by simpa using hct
      subst hc
      have hlt : legalize 't' = 't' := rfl
      simp only [List.map_cons, hlt]
      cases cs with
      | nil => rfl
      | cons d ds =>
        rw [matchTD_t_cons] at h
        simp only [List.map_cons]
        rw [matchTD_t_cons]
        by_cases hd : isDigitC d = true
        · rw [if_pos hd] at h
          cases h
        · rw [if_neg (by rw [isDigitC_legalize]; exact hd)]
    · simp only [List.map_cons]
      exact matchTD_not_t (by rw [legalize_t]; simpa using hct) _

theorem matchTaskId_map_none {y : List Char} (h : matchTaskId y = none) :
    matchTaskId (y.map legalize) = none := by
  rw [matchTaskId_eq, dropWhile_isWs_map_legalize]
  cases hd : y.dropWhile isWs with
  | nil => rfl
  | cons c rest =>
    simp only [List.map_cons]
    have hns : (legalize c == '/') = false := legalize_ne_slash c
    rw [if_neg (by simp [hns])]
    rw [show legalize c :: rest.map legalize = (c :: rest).map legalize from rfl]
    refine matchTD_map_none ?_
    by_cases hc : (c == '/') = true
    · have hcc : c = '/' := by simpa using hc
      subst hcc
      rfl
    · have hy : matchTaskId y = matchTD (c :: rest) := by
        rw [matchTaskId_eq, hd]
        exact if_neg hc
      rw [← hy]
      exact h

theorem suffix_map_legalize {s y : List Char} (hs : s <:+ y.map legalize) :
    ∃ t : List Char, t <:+ y ∧ s = t.map legalize := by
  obtain ⟨p, hp⟩ := hs
  obtain ⟨l₁, l₂, hy, h1, h2⟩ := List.map_eq_append_iff.mp hp.symm
  exact ⟨l₂, ⟨l₁, hy.symm⟩, h2.symm⟩

theorem matchFree_map {y : List Char} (h : matchFree y) :
    matchFree (y.map legalize) := by
  intro s hs
  obtain ⟨t, ht, rfl⟩ := suffix_map_legalize hs
  exact matchTaskId_map_none (h t ht)

theorem map_legalize_idem (l : List Char) :
    (l.map legalize).map legalize = l.map legalize := by
  induction l with
  | nil => rfl
  | cons c cs ih => simp only [List.map_cons, legalize_idem, ih]

/-- C9: the screen-identity sanitization is idempotent, and therefore
`save`'s defensive re-sanitization of an identity the resolver already
sanitized leaves it unchanged: the durable cache unit is written under
exactly `<device>_<identity>.json` for that identity, agreeing with the
in-memory map key. -/
theorem sanitize_activity_idempotent :
    (∀ s : List Char,
        sanitize_activity_name (sanitize_activity_name s) =
          sanitize_activity_name s) ∧
    (∀ (device s : List Char) (data : ScreenCache) (fs : CacheDir),
        save_activity_cache true device (sanitize_activity_name s) data fs =
          assocPut (device ++ '_' :: (sanitize_activity_name s ++ str ".json"))
            data fs) := by
  have main : ∀ s : List Char,
      sanitize_activity_name (sanitize_activity_name s) =
        sanitize_activity_name s := by
    intro s
    show (removeTaskIds ((removeTaskIds s).map legalize)).map legalize =
      (removeTaskIds s).map legalize
    have hfree : matchFree (removeTaskIds s) :=
      removeTaskIdsF_matchFree s.length s (le_refl _)
    have hfree' : matchFree ((removeTaskIds s).map legalize) :=
      matchFree_map hfree
    have hid : removeTaskIds ((removeTaskIds s).map legalize) =
        (removeTaskIds s).map legalize :=
      removeTaskIdsF_id _ _ hfree'
    rw [hid, map_legalize_idem]
  refine ⟨main, ?_⟩
  intro device s data fs
  show (if !true = true then fs else
    assocPut (device ++ '_' ::
      (sanitize_activity_name (sanitize_activity_name s) ++ str ".json")) data fs) =
    assocPut (device ++ '_' :: (sanitize_activity_name s ++ str ".json")) data fs
  rw [main s]
  rfl
